import Mathlib

/-!
Verification of the `httpr` Python wrapper (`src/httpr/__init__.py`).

The wrapper's observable data model is embedded shallowly:

* A Python `dict[str, str]` is modelled as an insertion-ordered association
  list `Store := List (String × String)`; the operations `storeGet?`,
  `storeSet`, `storeDel`, `storePopitem` mirror CPython dict semantics
  (lookup, in-place update preserving position, deletion, LIFO `popitem`).
* `CaseInsensitiveDict` (the header map) is a `Store` plus the optional
  bound client, whose stored default headers are themselves a `Store`.
  Each method of the Python class is translated one-for-one; mutating
  operations also return a `Bool` recording whether `_sync_to_client`
  was invoked on that call.
* `Client.request` / `AsyncClient.request` / the two `stream` variants are
  modelled as functions from the arguments to an outcome value: either
  `ValueError` or the argument tuple forwarded to the core `RClient`.
-/

namespace Httpr

/-- Model of Python `str.lower` on header keys (ASCII letters; header keys in
this library are ASCII token strings). -/
def pyLower (s : String) : String := String.mk (s.data.map Char.toLower)

/-- A Python `dict[str, str]`: insertion-ordered association list. -/
abbrev Store := List (String × String)

/-- `k in d` for a Python dict. -/
def storeMem (s : Store) (k : String) : Bool := s.any (fun p => p.1 == k)

/-- `d[k]` for a Python dict; `none` models `KeyError`. -/
def storeGet? (s : Store) (k : String) : Option String :=
  (s.find? (fun p => p.1 == k)).map (fun p => p.2)

/-- `d[k] = v` for a Python dict: updates in place when the key is present
(keeping its position), otherwise appends at the end. -/
def storeSet (s : Store) (k v : String) : Store :=
  if storeMem s k then s.map (fun p => if p.1 == k then (k, v) else p)
  else s ++ [(k, v)]

/-- `del d[k]` for a Python dict (caller checks presence). -/
def storeDel (s : Store) (k : String) : Store := s.filter (fun p => p.1 != k)

/-- `d.popitem()` for a Python dict: removes the most recently inserted pair
(LIFO); `none` models `KeyError` on an empty dict. -/
def storePopitem (s : Store) : Option ((String × String) × Store) :=
  match s.getLast? with
  | none => none
  | some p => some (p, s.dropLast)

/-- `CaseInsensitiveDict`: `_store` is the lowercase-keyed dict, `_client`
is the bound client's stored default-header dict (`none` when unbound). -/
structure CaseInsensitiveDict where
  _store : Store
  _client : Option Store
deriving Repr, DecidableEq

namespace CaseInsensitiveDict

/-- `_sync_to_client`: when a client is bound, its stored default headers are
replaced by a copy of `_store`.  The effect of the `RClient.headers` setter is
Modelled from the spec: the Rust core is not in the sources; per §4.2 the hook
rewrites the client's default headers to the map's contents. -/
def syncToClient (d : CaseInsensitiveDict) : CaseInsensitiveDict :=
  ⟨d._store, d._client.map (fun _ => d._store)⟩

/-- `__init__`: inserts `data`'s pairs into a fresh dict under lowercased keys
(`kwargs` are part of the same loop shape and are appended to `data` here). -/
def ofData (data : Store) (client : Option Store) : CaseInsensitiveDict :=
  ⟨data.foldl (fun acc p => storeSet acc (pyLower p.1) p.2) [], client⟩

/-- `__getitem__`: `self._store[key.lower()]`; `none` models `KeyError`. -/
def getitem (d : CaseInsensitiveDict) (k : String) : Option String :=
  storeGet? d._store (pyLower k)

/-- `__contains__`: `key.lower() in self._store` (string keys). -/
def contains (d : CaseInsensitiveDict) (k : String) : Bool :=
  storeMem d._store (pyLower k)

/-- `__iter__`: iteration yields the stored keys in dict order. -/
def iterKeys (d : CaseInsensitiveDict) : List String :=
  d._store.map (fun p => p.1)

/-- `__len__`. -/
def size (d : CaseInsensitiveDict) : Nat := d._store.length

/-- `__setitem__`: store under the lowercased key, then sync.  The returned
`Bool` records that `_sync_to_client` was invoked. -/
def setitem (d : CaseInsensitiveDict) (k v : String) :
    CaseInsensitiveDict × Bool :=
  (syncToClient ⟨storeSet d._store (pyLower k) v, d._client⟩, true)

/-- `__delitem__`: `del self._store[key.lower()]` (raising `KeyError`, the
`.error` case, when absent — the sync line is then never reached), then sync. -/
def delitem (d : CaseInsensitiveDict) (k : String) :
    Except Unit (CaseInsensitiveDict × Bool) :=
  let lk := pyLower k
  if storeMem d._store lk then
    .ok (syncToClient ⟨storeDel d._store lk, d._client⟩, true)
  else
    .error ()

/-- `clear`: empty the store, then sync. -/
def clear (d : CaseInsensitiveDict) : CaseInsensitiveDict × Bool :=
  (syncToClient ⟨[], d._client⟩, true)

/-- `pop`: remove and return the value for the lowercased key; sync only when
the key was present.  With no default and the key absent, `dict.pop` raises
`KeyError` (the `.error` case); with a default it returns it unchanged. -/
def pop (d : CaseInsensitiveDict) (k : String) (default : Option String) :
    Except Unit (String × CaseInsensitiveDict × Bool) :=
  let lk := pyLower k
  match storeGet? d._store lk, default with
  | some v, _ =>
      .ok (v, syncToClient ⟨storeDel d._store lk, d._client⟩, true)
  | none, some dv => .ok (dv, d, false)
  | none, none => .error ()

/-- `popitem`: `dict.popitem` (LIFO; `KeyError` on empty, reached before the
sync call), then sync. -/
def popitem (d : CaseInsensitiveDict) :
    Except Unit ((String × String) × CaseInsensitiveDict × Bool) :=
  match storePopitem d._store with
  | none => .error ()
  | some (p, rest) => .ok (p, syncToClient ⟨rest, d._client⟩, true)

/-- `setdefault`: insert the default under the lowercased key only when
absent (syncing in that case); return the value now stored. -/
def setdefault (d : CaseInsensitiveDict) (k dflt : String) :
    String × CaseInsensitiveDict × Bool :=
  let lk := pyLower k
  match storeGet? d._store lk with
  | some v => (v, d, false)
  | none => (dflt, syncToClient ⟨storeSet d._store lk dflt, d._client⟩, true)

/-- `update`: fold the pairs of `other` and then `kwargs` into the store under
lowercased keys; `changed` is set exactly when at least one pair was seen, and
the sync happens only then. -/
def update (d : CaseInsensitiveDict) (other : Option (List (String × String)))
    (kwargs : List (String × String)) : CaseInsensitiveDict × Bool :=
  let pairs := (other.getD []) ++ kwargs
  let store' := pairs.foldl (fun acc p => storeSet acc (pyLower p.1) p.2) d._store
  let changed := (match other with | some l => !l.isEmpty | none => false)
      || !kwargs.isEmpty
  let d' : CaseInsensitiveDict := ⟨store', d._client⟩
  (if changed then syncToClient d' else d', changed)

/-- `copy`: `CaseInsensitiveDict(self._store.copy())` — re-runs the
constructor on a copy of the store, with no bound client. -/
def copy (d : CaseInsensitiveDict) : CaseInsensitiveDict :=
  ofData d._store none

/-- `lower_items`: iterator over the stored (lowercase key, value) pairs. -/
def lowerItems (d : CaseInsensitiveDict) : Store := d._store

/-- Python `dict.__eq__`: order-insensitive equality of key-value mappings. -/
def dictEq (a b : Store) : Bool :=
  a.all (fun p => storeGet? b p.1 == some p.2)
    && b.all (fun p => storeGet? a p.1 == some p.2)

/-- The dict comprehension from `__eq__`:
an ordinary dict built from `other` with every key lowercased. -/
def lowerDict (d : Store) : Store :=
  d.foldl (fun acc p => storeSet acc (pyLower p.1) p.2) []

/-- `__eq__` against another `CaseInsensitiveDict`: compares the stores. -/
def eqCID (h1 h2 : CaseInsensitiveDict) : Bool := dictEq h1._store h2._store

/-- `__eq__` against a plain dict: compares the store with the
lowercase-keyed rebuild of the other dict. -/
def eqPlainDict (h : CaseInsensitiveDict) (d : Store) : Bool :=
  dictEq h._store (lowerDict d)

end CaseInsensitiveDict

/-- A sequence of `__setitem__` calls applied in order. -/
def insertSeq (d : CaseInsensitiveDict) (ops : List (String × String)) :
    CaseInsensitiveDict :=
  ops.foldl (fun acc p => (acc.setitem p.1 p.2).1) d

/-- Keeps the first occurrence of each element, dropping later duplicates;
`seen` accumulates the elements already emitted. -/
def firstOccAux (seen : List String) : List String → List String
  | [] => []
  | k :: ks =>
      if seen.any (fun x => x == k) then firstOccAux seen ks
      else k :: firstOccAux (k :: seen) ks

/-- The keys of a Python dict are pairwise distinct. -/
def keysNodup (s : Store) : Prop := (s.map (fun p => p.1)).Nodup

/-- Every key of the store is already lowercase (every `CaseInsensitiveDict`
reachable through the class's operations satisfies this). -/
def keysLower (s : Store) : Prop := ∀ p ∈ s, pyLower p.1 = p.1

instance (s : Store) : Decidable (keysNodup s) := by
  unfold keysNodup; infer_instance

instance (s : Store) : Decidable (keysLower s) := by
  unfold keysLower; infer_instance

/-! ### The client layer (`Client`, `AsyncClient`)

`RClient` — the Rust core — is not among the sources.  The Python layer's
observable contract towards it is modelled: a client's state is its stored
default headers, cookies and default params, and issuing a request forwards
the validated method, the URL and the stringified params to the core,
which attaches the stored default headers (Modelled from the spec: §4.1
merge of client defaults into the request plan). -/

/-- The method allow-list appearing verbatim in `request`/`stream`. -/
def allowedMethods : List String :=
  ["GET", "HEAD", "OPTIONS", "DELETE", "POST", "PUT", "PATCH"]

/-- A Python query-parameter value as passed by callers: a string or an int. -/
inductive PyVal where
  | str (s : String)
  | int (n : Int)
deriving Repr, DecidableEq

/-- Decimal digits of `n`, most significant first; the first argument is
structural fuel (`n` itself suffices since `n / 10 < n`). -/
def natDigitsAux : Nat → Nat → List Char
  | 0, _ => []
  | fuel + 1, n =>
      if n == 0 then []
      else natDigitsAux fuel (n / 10) ++ [Nat.digitChar (n % 10)]

/-- Modelled from the spec: Python's builtin `str` on a non-negative int —
its decimal digits, `"0"` for zero (shortest faithful representation). -/
def pyStrNat (n : Nat) : String :=
  if n == 0 then "0" else String.mk (natDigitsAux n n)

/-- Modelled from the spec: Python's builtin `str` on an int — a minus sign
followed by the decimal digits for negatives. -/
def pyStrInt (m : Int) : String :=
  if m < 0 then String.mk ('-' :: (natDigitsAux m.natAbs m.natAbs))
  else pyStrNat m.natAbs

/-- Modelled from the spec: Python's builtin `str` on a query value. -/
def pyStr : PyVal → String
  | .str s => s
  | .int n => pyStrInt n

/-- The numeric value of a decimal digit character, `none` otherwise. -/
def digitVal? (c : Char) : Option Nat :=
  if 48 ≤ c.toNat ∧ c.toNat ≤ 57 then some (c.toNat - 48) else none

/-- Reads a run of decimal digits (most significant first) starting from the
accumulated value `acc`; fails on any non-digit. -/
def parseDigitsAux (acc : Nat) : List Char → Option Nat
  | [] => some acc
  | c :: cs =>
      match digitVal? c with
      | some d => parseDigitsAux (acc * 10 + d) cs
      | none => none

/-- A non-empty all-digit string read as a natural number (leading zeros
allowed — any faithful decimal spelling). -/
def parseNat (cs : List Char) : Option Nat :=
  if cs.isEmpty then none else parseDigitsAux 0 cs

/-- A decimal spelling of an integer: an optional leading minus sign followed
by at least one digit. -/
def decodeDecimal (s : String) : Option Int :=
  match s.data with
  | [] => none
  | c :: cs =>
      if c = '-' then (parseNat cs).map (fun (n : Nat) => -(n : Int))
      else (parseNat (c :: cs)).map (fun (n : Nat) => (n : Int))

/-- The observable state of a client: stored default headers, cookies, and
default query params (the configuration the claims inspect). -/
structure ClientState where
  headers : Store
  cookies : Store
  params : Store
deriving Repr, DecidableEq

/-- What a call to `request`/`stream` does before (or instead of) touching
the core: either the `ValueError` raised on an unsupported method — in which
case nothing is forwarded — or the argument tuple handed to the core
(`defaultHeaders` being the client's stored defaults the core attaches). -/
inductive RequestOutcome where
  | valueError (method : String)
  | issued (method url : String) (defaultHeaders : Store)
      (params : Option (List (String × String)))
deriving Repr, DecidableEq

/-- `Client.request`: validate the method (raising `ValueError` before any
request is made), stringify every param value with `str`, then delegate to
the core. -/
def Client.request (c : ClientState) (method url : String)
    (params : Option (List (String × PyVal))) : RequestOutcome :=
  if allowedMethods.contains method then
    .issued method url c.headers
      (params.map (fun ps => ps.map (fun p => (p.1, pyStr p.2))))
  else
    .valueError method

/-- `AsyncClient.request`: the same validation and stringification, then
delegation to `Client.request` (which re-runs both; `str` on a string is the
identity). -/
def AsyncClient.request (c : ClientState) (method url : String)
    (params : Option (List (String × PyVal))) : RequestOutcome :=
  if allowedMethods.contains method then
    Client.request c method url
      (params.map (fun ps => ps.map (fun p => (p.1, PyVal.str (pyStr p.2)))))
  else
    .valueError method

/-- How the body of a `with client.stream(...) as r:` block ends. -/
inductive BodyOutcome where
  | normal
  | raised
deriving Repr, DecidableEq

/-- The slice of `StreamingResponse` state the stream claims inspect:
how many times `close()` has been called on it. -/
structure StreamingResponse where
  closeCalls : Nat
deriving Repr, DecidableEq

/-- `StreamingResponse.close()`. -/
def StreamingResponse.close (r : StreamingResponse) : StreamingResponse :=
  ⟨r.closeCalls + 1⟩

/-- Result of running a `stream` context manager to completion. -/
inductive StreamOutcome where
  | valueError (method : String)
  | finished (response : StreamingResponse) (body : BodyOutcome)
deriving Repr, DecidableEq

/-- `Client.stream` used as a context manager: validate the method, obtain
the fresh response from the core `_stream`, run the with-block body
(`try: yield response`), and close the response in the `finally:` clause —
reached both on normal completion and on an exception from the body. -/
def Client.stream (method url : String) (body : BodyOutcome) : StreamOutcome :=
  if allowedMethods.contains method then
    let response : StreamingResponse := ⟨0⟩
    .finished response.close body
  else
    .valueError method

/-- `AsyncClient.stream`: identical shape (the core `_stream` call merely
runs in an executor). -/
def AsyncClient.stream (method url : String) (body : BodyOutcome) :
    StreamOutcome :=
  if allowedMethods.contains method then
    let response : StreamingResponse := ⟨0⟩
    .finished response.close body
  else
    .valueError method

/-- `Client.close`: the body is `del self`, which only removes the local
name binding — the client object is untouched. -/
def Client.close (c : ClientState) : ClientState := c

/-- `Client.__exit__`: body is `del self`, a no-op on the object. -/
def Client.exitContext (c : ClientState) : ClientState := c

/-- `AsyncClient.aclose`: body is `del self; return`, a no-op on the object. -/
def AsyncClient.aclose (c : ClientState) : ClientState := c

/-- `AsyncClient.__aexit__`: body is `del self`, a no-op on the object. -/
def AsyncClient.aexitContext (c : ClientState) : ClientState := c

/-! ### Basic lemmas about the dict model -/

theorem storeMem_eq_isSome (s : Store) (k : String) :
    storeMem s k = (storeGet? s k).isSome := by
  induction s with
  | nil => rfl
  | cons p rest ih =>
      unfold storeMem storeGet? at *
      cases hpk : p.1 == k with
      | true => simp [List.any_cons, List.find?, hpk]
      | false => simpa [List.any_cons, List.find?, hpk] using ih

theorem storeGet?_eq_none_of_not_mem (s : Store) (k : String)
    (h : storeMem s k = false) : storeGet? s k = none := by
  rw [storeMem_eq_isSome] at h
  exact Option.not_isSome_iff_eq_none.mp (by simp [h])

theorem storeMem_true_of_get (s : Store) (k : String) (v : String)
    (h : storeGet? s k = some v) : storeMem s k = true := by
  rw [storeMem_eq_isSome, h]
  rfl

/-- C1: for every header-map state and any two keys that lowercase equally
(differ only in letter case), item lookup returns the same `Option` result
(same value, or `KeyError` i.e. `none` for both) and membership agrees. -/
theorem caseInsensitiveDict_lookup_ignores_case (d : CaseInsensitiveDict)
    (k1 k2 : String) (h : pyLower k1 = pyLower k2) :
    d.getitem k1 = d.getitem k2 ∧ (d.contains k1 = true ↔ d.contains k2 = true) := by
  unfold CaseInsensitiveDict.getitem CaseInsensitiveDict.contains
  rw [h]
  exact ⟨rfl, Iff.rfl⟩

/-- C1 witness: on a concrete two-entry map, `Content-Type` and
`content-TYPE` agree on lookup and membership. -/
theorem caseInsensitiveDict_lookup_ignores_case_witness :
    (⟨[("content-type", "text/html"), ("accept", "*")], none⟩ :
        CaseInsensitiveDict).getitem "Content-Type"
      = (⟨[("content-type", "text/html"), ("accept", "*")], none⟩ :
        CaseInsensitiveDict).getitem "content-TYPE" ∧
    ((⟨[("content-type", "text/html"), ("accept", "*")], none⟩ :
        CaseInsensitiveDict).contains "Content-Type" = true ↔
      (⟨[("content-type", "text/html"), ("accept", "*")], none⟩ :
        CaseInsensitiveDict).contains "content-TYPE" = true) :=
  caseInsensitiveDict_lookup_ignores_case _ "Content-Type" "content-TYPE"
    (by decide)

/-- C2 (counterexample): on a bound map holding `a ↦ 1` (the client's stored
headers agree), `setdefault` on the already-present key `a` is a mutation
operation of the claim's list that does not invoke `_sync_to_client`
(sync flag `false`), so not every listed operation triggers the propagation
hook. -/
theorem setdefault_present_key_skips_sync :
    ((⟨[("a", "1")], some [("a", "1")]⟩ : CaseInsensitiveDict)._client.isSome = true)
  ∧ (((⟨[("a", "1")], some [("a", "1")]⟩ : CaseInsensitiveDict).setdefault "a" "2").2.2 = false)
  ∧ (((⟨[("a", "1")], some [("a", "1")]⟩ : CaseInsensitiveDict).setdefault "a" "2").2.1
      = ⟨[("a", "1")], some [("a", "1")]⟩) :=
  ⟨rfl, by decide, by decide⟩

/-- C2 (amended): on a map bound to a client, `set`, `delete`, `clear` and
`popitem` always invoke the propagation hook and leave the client's stored
default headers equal to the map's contents; `pop` does so exactly when the
key was present, `setdefault` exactly when the key was absent, and `update`
exactly when at least one pair was supplied — in the remaining cases the whole
state (map and client headers alike) is returned unchanged. -/
theorem caseInsensitiveDict_mutation_sync_conditions
    (d : CaseInsensitiveDict) (c : Store) (hb : d._client = some c) :
    (∀ k v, ((d.setitem k v).1._client = some (d.setitem k v).1._store)
        ∧ (d.setitem k v).2 = true)
  ∧ (∀ k r, d.delitem k = Except.ok r →
        r.1._client = some r.1._store ∧ r.2 = true)
  ∧ (d.clear.1._client = some d.clear.1._store ∧ d.clear.2 = true)
  ∧ (∀ r, d.popitem = Except.ok r →
        r.2.1._client = some r.2.1._store ∧ r.2.2 = true)
  ∧ (∀ k dflt,
        (storeMem d._store (pyLower k) = true →
            ∃ r, d.pop k dflt = Except.ok r
              ∧ r.2.1._client = some r.2.1._store ∧ r.2.2 = true)
      ∧ (storeMem d._store (pyLower k) = false →
          ∀ r, d.pop k dflt = Except.ok r → r.2.1 = d ∧ r.2.2 = false))
  ∧ (∀ k dflt,
        (storeMem d._store (pyLower k) = false →
            (d.setdefault k dflt).2.1._client = some (d.setdefault k dflt).2.1._store
          ∧ (d.setdefault k dflt).2.2 = true)
      ∧ (storeMem d._store (pyLower k) = true →
            (d.setdefault k dflt).2.1 = d ∧ (d.setdefault k dflt).2.2 = false))
  ∧ (∀ (other : Option (List (String × String))) (kwargs : List (String × String)),
        (other.getD [] ++ kwargs ≠ [] →
            (d.update other kwargs).1._client = some (d.update other kwargs).1._store
          ∧ (d.update other kwargs).2 = true)
      ∧ (other.getD [] ++ kwargs = [] →
            (d.update other kwargs).1 = d ∧ (d.update other kwargs).2 = false)) := by
  refine ⟨?_, ?_, ?_, ?_, ?_, ?_, ?_⟩
  · intro k v
    simp [CaseInsensitiveDict.setitem, CaseInsensitiveDict.syncToClient, hb]
  · intro k r hr
    by_cases hm : storeMem d._store (pyLower k) = true
    · simp only [CaseInsensitiveDict.delitem, hm, if_true] at hr
      cases hr
      simp [CaseInsensitiveDict.syncToClient, hb]
    · simp [CaseInsensitiveDict.delitem, hm] at hr
  · simp [CaseInsensitiveDict.clear, CaseInsensitiveDict.syncToClient, hb]
  · intro r hr
    cases hpop : storePopitem d._store with
    | none => simp [CaseInsensitiveDict.popitem, hpop] at hr
    | some q =>
        simp only [CaseInsensitiveDict.popitem, hpop] at hr
        cases hr
        simp [CaseInsensitiveDict.syncToClient, hb]
  · intro k dflt
    constructor
    · intro hm
      rw [storeMem_eq_isSome] at hm
      obtain ⟨v, hv⟩ := Option.isSome_iff_exists.mp hm
      refine ⟨(v, CaseInsensitiveDict.syncToClient
          ⟨storeDel d._store (pyLower k), d._client⟩, true), ?_, ?_, rfl⟩
      · simp [CaseInsensitiveDict.pop, hv]
      · simp [CaseInsensitiveDict.syncToClient, hb]
    · intro hm r hr
      have hg := storeGet?_eq_none_of_not_mem _ _ hm
      cases dflt with
      | none => simp [CaseInsensitiveDict.pop, hg] at hr
      | some dv =>
          simp only [CaseInsensitiveDict.pop, hg] at hr
          cases hr
          exact ⟨rfl, rfl⟩
  · intro k dflt
    constructor
    · intro hm
      have hg := storeGet?_eq_none_of_not_mem _ _ hm
      simp [CaseInsensitiveDict.setdefault, hg, CaseInsensitiveDict.syncToClient, hb]
    · intro hm
      rw [storeMem_eq_isSome] at hm
      obtain ⟨v, hv⟩ := Option.isSome_iff_exists.mp hm
      simp [CaseInsensitiveDict.setdefault, hv]
  · intro other kwargs
    constructor
    · intro hne
      cases other with
      | none =>
          cases kwargs with
          | nil => simp at hne
          | cons a as =>
              simp [CaseInsensitiveDict.update, CaseInsensitiveDict.syncToClient, hb]
      | some l =>
          cases l with
          | nil =>
              cases kwargs with
              | nil => simp at hne
              | cons a as =>
                  simp [CaseInsensitiveDict.update, CaseInsensitiveDict.syncToClient, hb]
          | cons a as =>
              simp [CaseInsensitiveDict.update, CaseInsensitiveDict.syncToClient, hb]
    · intro hnil
      cases other with
      | none =>
          have hk : kwargs = [] := by simpa using hnil
          subst hk
          exact ⟨rfl, rfl⟩
      | some l =>
          obtain ⟨hl, hk⟩ := List.append_eq_nil.mp (by simpa using hnil)
          subst hl; subst hk
          exact ⟨rfl, rfl⟩

/-- C2 witness: the amended theorem applied to the bound one-entry map
`a ↦ 1`, instantiated at a fresh key: `__setitem__` syncs the client and
reports the hook call. -/
theorem caseInsensitiveDict_mutation_sync_conditions_witness :
    (((⟨[("a", "1")], some [("a", "1")]⟩ : CaseInsensitiveDict).setitem "B" "2").1._client
      = some (((⟨[("a", "1")], some [("a", "1")]⟩ : CaseInsensitiveDict).setitem "B" "2").1._store))
  ∧ (((⟨[("a", "1")], some [("a", "1")]⟩ : CaseInsensitiveDict).setitem "B" "2").2 = true) :=
  (caseInsensitiveDict_mutation_sync_conditions _ [("a", "1")] rfl).1 "B" "2"

/-- C10: popping a key absent from the map (up to case) raises `KeyError`
when no default is given and returns the default otherwise; in both cases the
returned state is exactly the input state (store and bound client's headers
untouched) and the sync flag is `false`. -/
theorem pop_missing_key_leaves_state_unchanged (d : CaseInsensitiveDict)
    (k : String) (h : storeMem d._store (pyLower k) = false) :
    d.pop k none = Except.error ()
  ∧ ∀ dv, d.pop k (some dv) = Except.ok (dv, d, false) := by
  have hg := storeGet?_eq_none_of_not_mem _ _ h
  exact ⟨by simp [CaseInsensitiveDict.pop, hg], fun dv => by simp [CaseInsensitiveDict.pop, hg]⟩

/-- C10 witness: on the bound one-entry map `x-a ↦ 1`, popping the absent
key `b` errors without a default and returns the default with one,
leaving the state untouched. -/
theorem pop_missing_key_leaves_state_unchanged_witness :
    (⟨[("x-a", "1")], some [("x-a", "1")]⟩ : CaseInsensitiveDict).pop "b" none
      = Except.error ()
  ∧ (⟨[("x-a", "1")], some [("x-a", "1")]⟩ : CaseInsensitiveDict).pop "b" (some "dflt")
      = Except.ok ("dflt", ⟨[("x-a", "1")], some [("x-a", "1")]⟩, false) :=
  ⟨(pop_missing_key_leaves_state_unchanged _ "b" (by decide)).1,
   (pop_missing_key_leaves_state_unchanged _ "b" (by decide)).2 "dflt"⟩

/-- C3: a method outside the allow-list makes `Client.request`,
`AsyncClient.request`, `Client.stream` and `AsyncClient.stream` all raise
`ValueError`, and the outcome is never an `issued` request — nothing reaches
the core. -/
theorem invalid_method_raises_value_error (c : ClientState) (method url : String)
    (params : Option (List (String × PyVal))) (body : BodyOutcome)
    (h : allowedMethods.contains method = false) :
    Client.request c method url params = .valueError method
  ∧ AsyncClient.request c method url params = .valueError method
  ∧ Client.stream method url body = .valueError method
  ∧ AsyncClient.stream method url body = .valueError method
  ∧ (∀ m u hs ps, Client.request c method url params ≠ .issued m u hs ps) := by
  have hn : method ∉ allowedMethods := by simpa using h
  refine ⟨?_, ?_, ?_, ?_, ?_⟩
  · simp [Client.request, hn]
  · simp [AsyncClient.request, hn]
  · simp [Client.stream, hn]
  · simp [AsyncClient.stream, hn]
  · intro m u hs ps
    simp [Client.request, hn]

/-- C3 witness: the unsupported method `TRACE` is rejected everywhere. -/
theorem invalid_method_raises_value_error_witness :
    Client.request ⟨[], [], []⟩ "TRACE" "https://x" none
      = .valueError "TRACE"
  ∧ AsyncClient.request ⟨[], [], []⟩ "TRACE" "https://x" none
      = .valueError "TRACE"
  ∧ Client.stream "TRACE" "https://x" BodyOutcome.normal = .valueError "TRACE"
  ∧ AsyncClient.stream "TRACE" "https://x" BodyOutcome.normal
      = .valueError "TRACE" :=
  let t := invalid_method_raises_value_error ⟨[], [], []⟩ "TRACE" "https://x"
    none BodyOutcome.normal (by decide)
  ⟨t.1, t.2.1, t.2.2.1, t.2.2.2.1⟩

/-- C8: for a supported method, the stream context manager yields the fresh
response and closes it exactly once on scope exit — the final close count is
1 whether the with-block body completed normally or raised. -/
theorem stream_closes_once_on_scope_exit (method url : String)
    (body : BodyOutcome) (h : allowedMethods.contains method = true) :
    Client.stream method url body = .finished ⟨1⟩ body
  ∧ AsyncClient.stream method url body = .finished ⟨1⟩ body := by
  have hm : method ∈ allowedMethods := by simpa using h
  constructor
  · simp [Client.stream, hm, StreamingResponse.close]
  · simp [AsyncClient.stream, hm, StreamingResponse.close]

/-- C8 witness: a `GET` stream ends with close count 1 both when the block
body returns normally and when it raises. -/
theorem stream_closes_once_on_scope_exit_witness :
    Client.stream "GET" "https://x" BodyOutcome.normal
      = .finished ⟨1⟩ BodyOutcome.normal
  ∧ AsyncClient.stream "GET" "https://x" BodyOutcome.raised
      = .finished ⟨1⟩ BodyOutcome.raised :=
  ⟨(stream_closes_once_on_scope_exit "GET" "https://x" BodyOutcome.normal
      (by decide)).1,
   (stream_closes_once_on_scope_exit "GET" "https://x" BodyOutcome.raised
      (by decide)).2⟩

/-- C9: `close`, `__exit__`, `aclose` and `__aexit__` leave the client state
(headers, cookies, default params) unchanged, and a request after `close` or
`aclose` has exactly the outcome it had before. -/
theorem client_close_leaves_state_unchanged (c : ClientState)
    (method url : String) (params : Option (List (String × PyVal))) :
    Client.close c = c
  ∧ Client.exitContext c = c
  ∧ AsyncClient.aclose c = c
  ∧ AsyncClient.aexitContext c = c
  ∧ (Client.close c).headers = c.headers
  ∧ (Client.close c).cookies = c.cookies
  ∧ (Client.close c).params = c.params
  ∧ Client.request (Client.close c) method url params
      = Client.request c method url params
  ∧ AsyncClient.request (AsyncClient.aclose c) method url params
      = AsyncClient.request c method url params :=
  ⟨rfl, rfl, rfl, rfl, rfl, rfl, rfl, rfl, rfl⟩

/-! ### Key order under insertion -/

theorem beq_keys_any (s : Store) (k : String) :
    (s.map (fun p => p.1)).any (fun x => x == k) = storeMem s k := by
  unfold storeMem
  induction s with
  | nil => rfl
  | cons p rest ih => rw [List.map_cons, List.any_cons, List.any_cons, ih]

theorem keys_storeSet_of_mem (s : Store) (k v : String)
    (h : storeMem s k = true) :
    (storeSet s k v).map (fun p => p.1) = s.map (fun p => p.1) := by
  unfold storeSet
  rw [if_pos h, List.map_map]
  refine List.map_congr_left ?_
  intro p _
  by_cases hp : (p.1 == k) = true
  · simp only [Function.comp_apply, if_pos hp]
    exact (eq_of_beq hp).symm
  · simp only [Function.comp_apply, if_neg hp]

theorem keys_storeSet_of_not_mem (s : Store) (k v : String)
    (h : storeMem s k = false) :
    (storeSet s k v).map (fun p => p.1) = s.map (fun p => p.1) ++ [k] := by
  unfold storeSet
  rw [if_neg (by simp [h]), List.map_append]
  rfl

theorem find_in_mapped (s : Store) (k v : String) (h : storeMem s k = true) :
    storeGet? (s.map (fun p => if p.1 == k then (k, v) else p)) k = some v := by
  induction s with
  | nil => simp [storeMem] at h
  | cons p rest ih =>
      rw [List.map_cons]
      by_cases hp : (p.1 == k) = true
      · rw [if_pos hp]
        unfold storeGet?
        rw [List.find?_cons_of_pos _ (by simp)]
        rfl
      · rw [if_neg hp]
        have hrest : storeMem rest k = true := by
          unfold storeMem at h ⊢
          rw [List.any_cons] at h
          simpa [hp] using h
        have hres := ih hrest
        unfold storeGet? at hres ⊢
        rw [List.find?_cons_of_neg _ (by simpa using hp)]
        exact hres

theorem storeGet?_append_single (s : Store) (k v : String)
    (h : storeMem s k = false) :
    storeGet? (s ++ [(k, v)]) k = some v := by
  induction s with
  | nil => simp [storeGet?, List.find?]
  | cons p rest ih =>
      unfold storeMem at h
      rw [List.any_cons] at h
      obtain ⟨hp, hrest⟩ := Bool.or_eq_false_iff.mp h
      have hres := ih hrest
      rw [List.cons_append]
      unfold storeGet? at hres ⊢
      rw [List.find?_cons_of_neg _ (by simp [hp])]
      exact hres

theorem storeGet?_storeSet_self (s : Store) (k v : String) :
    storeGet? (storeSet s k v) k = some v := by
  unfold storeSet
  by_cases h : storeMem s k = true
  · rw [if_pos h]
    exact find_in_mapped s k v h
  · have h' : storeMem s k = false := by simpa using h
    rw [if_neg (by simp [h'])]
    exact storeGet?_append_single s k v h'

theorem firstOccAux_congr (s1 s2 ks : List String)
    (h : ∀ x, s1.any (fun y => y == x) = s2.any (fun y => y == x)) :
    firstOccAux s1 ks = firstOccAux s2 ks := by
  induction ks generalizing s1 s2 with
  | nil => rfl
  | cons k ks ih =>
      simp only [firstOccAux]
      rw [h k]
      by_cases hk : s2.any (fun y => y == k) = true
      · rw [if_pos hk, if_pos hk]
        exact ih s1 s2 h
      · rw [if_neg hk, if_neg hk]
        refine congrArg (k :: ·) (ih (k :: s1) (k :: s2) ?_)
        intro x
        rw [List.any_cons, List.any_cons, h x]

theorem insertSeq_keys (ops : List (String × String)) (d : CaseInsensitiveDict) :
    (insertSeq d ops)._store.map (fun p => p.1)
      = d._store.map (fun p => p.1)
        ++ firstOccAux (d._store.map (fun p => p.1))
            (ops.map (fun p => pyLower p.1)) := by
  induction ops generalizing d with
  | nil => simp [insertSeq, firstOccAux]
  | cons p rest ih =>
      have hstep : insertSeq d (p :: rest) = insertSeq (d.setitem p.1 p.2).1 rest := rfl
      rw [hstep, ih]
      have hstore : ((d.setitem p.1 p.2).1)._store
          = storeSet d._store (pyLower p.1) p.2 := rfl
      rw [List.map_cons]
      by_cases hm : storeMem d._store (pyLower p.1) = true
      · have hkeys : ((d.setitem p.1 p.2).1)._store.map (fun q => q.1)
            = d._store.map (fun q => q.1) := by
          rw [hstore]
          exact keys_storeSet_of_mem _ _ _ hm
        rw [hkeys]
        have hseen : (d._store.map (fun q => q.1)).any
            (fun x => x == pyLower p.1) = true := by
          rw [beq_keys_any]
          exact hm
        simp only [firstOccAux]
        rw [if_pos hseen]
      · have hm' : storeMem d._store (pyLower p.1) = false := by simpa using hm
        have hkeys : ((d.setitem p.1 p.2).1)._store.map (fun q => q.1)
            = d._store.map (fun q => q.1) ++ [pyLower p.1] := by
          rw [hstore]
          exact keys_storeSet_of_not_mem _ _ _ hm'
        rw [hkeys]
        have hseen : (d._store.map (fun q => q.1)).any
            (fun x => x == pyLower p.1) = false := by
          rw [beq_keys_any]
          exact hm'
        simp only [firstOccAux]
        rw [if_neg (by simp [hseen])]
        rw [firstOccAux_congr (d._store.map (fun q => q.1) ++ [pyLower p.1])
          (pyLower p.1 :: d._store.map (fun q => q.1))
          (rest.map (fun q => pyLower q.1)) ?_]
        · rw [List.append_assoc]
          rfl
        · intro x
          rw [List.any_append, List.any_cons]
          simp [Bool.or_comm]

/-- C7: iterating the map built by a sequence of insertions from empty yields
the lowercased keys in first-insertion order (later duplicates dropped), and
a single `__setitem__` keeps an existing key's position while updating its
value, or appends a fresh key at the end. -/
theorem headerMap_preserves_insertion_order (ops : List (String × String))
    (d : CaseInsensitiveDict) (k v : String) :
    ((insertSeq ⟨[], none⟩ ops).iterKeys
        = firstOccAux [] (ops.map (fun p => pyLower p.1)))
  ∧ (storeMem d._store (pyLower k) = true →
        (d.setitem k v).1.iterKeys = d.iterKeys
      ∧ (d.setitem k v).1.getitem k = some v)
  ∧ (storeMem d._store (pyLower k) = false →
        (d.setitem k v).1.iterKeys = d.iterKeys ++ [pyLower k]
      ∧ (d.setitem k v).1.getitem k = some v) := by
  refine ⟨?_, ?_, ?_⟩
  · have h := insertSeq_keys ops ⟨[], none⟩
    simpa [CaseInsensitiveDict.iterKeys] using h
  · intro hm
    exact ⟨keys_storeSet_of_mem _ _ _ hm, storeGet?_storeSet_self _ _ _⟩
  · intro hm
    exact ⟨keys_storeSet_of_not_mem _ _ _ hm, storeGet?_storeSet_self _ _ _⟩

/-- C7 witness: inserting `A, b, a` from empty iterates as `a, b`; re-setting
`A` on a map holding `a, b` keeps the order and updates the value. -/
theorem headerMap_preserves_insertion_order_witness :
    ((insertSeq ⟨[], none⟩ [("A", "1"), ("b", "2"), ("a", "3")]).iterKeys
        = firstOccAux []
            ([("A", "1"), ("b", "2"), ("a", "3")].map (fun p => pyLower p.1)))
  ∧ (((⟨[("a", "1"), ("b", "2")], none⟩ : CaseInsensitiveDict).setitem "A" "9").1.iterKeys
        = (⟨[("a", "1"), ("b", "2")], none⟩ : CaseInsensitiveDict).iterKeys)
  ∧ (((⟨[("a", "1"), ("b", "2")], none⟩ : CaseInsensitiveDict).setitem "A" "9").1.getitem "A"
        = some "9") :=
  ⟨(headerMap_preserves_insertion_order [("A", "1"), ("b", "2"), ("a", "3")]
      ⟨[("a", "1"), ("b", "2")], none⟩ "A" "9").1,
   ((headerMap_preserves_insertion_order [("A", "1"), ("b", "2"), ("a", "3")]
      ⟨[("a", "1"), ("b", "2")], none⟩ "A" "9").2.1 (by decide)).1,
   ((headerMap_preserves_insertion_order [("A", "1"), ("b", "2"), ("a", "3")]
      ⟨[("a", "1"), ("b", "2")], none⟩ "A" "9").2.1 (by decide)).2⟩

/-! ### Well-formed stores: distinct, lowercase keys -/

theorem storeMem_append (a b : Store) (k : String) :
    storeMem (a ++ b) k = (storeMem a k || storeMem b k) := by
  unfold storeMem
  rw [List.any_append]

theorem foldSet_eq_append (s : Store) :
    ∀ acc : Store, keysNodup s → keysLower s →
      (∀ p ∈ s, storeMem acc p.1 = false) →
      s.foldl (fun a p => storeSet a (pyLower p.1) p.2) acc = acc ++ s := by
  induction s with
  | nil => intro acc _ _ _; simp
  | cons p rest ih =>
      intro acc hnd hlow hdisj
      have hp1 : pyLower p.1 = p.1 := hlow p (List.mem_cons_self _ _)
      have hmem : storeMem acc p.1 = false := hdisj p (List.mem_cons_self _ _)
      rw [List.foldl_cons]
      have hstep : storeSet acc (pyLower p.1) p.2 = acc ++ [p] := by
        rw [hp1]
        unfold storeSet
        rw [if_neg (by simp [hmem])]
      rw [hstep]
      have hnotin : p.1 ∉ rest.map (fun r => r.1) := by
        unfold keysNodup at hnd
        rw [List.map_cons] at hnd
        exact (List.nodup_cons.mp hnd).1
      have hnd' : keysNodup rest := by
        unfold keysNodup at hnd ⊢
        rw [List.map_cons] at hnd
        exact (List.nodup_cons.mp hnd).2
      have hlow' : keysLower rest := fun q hq => hlow q (List.mem_cons_of_mem _ hq)
      have hdisj' : ∀ q ∈ rest, storeMem (acc ++ [p]) q.1 = false := by
        intro q hq
        rw [storeMem_append]
        have hne : p.1 ≠ q.1 := fun he => hnotin (he ▸ List.mem_map_of_mem _ hq)
        have h1 : storeMem acc q.1 = false := hdisj q (List.mem_cons_of_mem _ hq)
        have h2 : storeMem [p] q.1 = false := by simp [storeMem, hne]
        rw [h1, h2]
        rfl
      rw [ih (acc ++ [p]) hnd' hlow' hdisj', List.append_assoc]
      rfl

theorem keysNodup_storeSet (s : Store) (k v : String) (h : keysNodup s) :
    keysNodup (storeSet s k v) := by
  by_cases hm : storeMem s k = true
  · unfold keysNodup at *
    rw [keys_storeSet_of_mem s k v hm]
    exact h
  · have hm' : storeMem s k = false := by simpa using hm
    unfold keysNodup at *
    rw [keys_storeSet_of_not_mem s k v hm', List.nodup_append]
    refine ⟨h, List.nodup_singleton k, ?_⟩
    intro x hx hxk
    rw [List.mem_singleton] at hxk
    subst hxk
    obtain ⟨p, hp, hpk⟩ := List.mem_map.mp hx
    have hmem : storeMem s x = true := by
      unfold storeMem
      rw [List.any_eq_true]
      exact ⟨p, hp, by simp [hpk]⟩
    simp [hmem] at hm'

theorem keysNodup_foldSet (ps : List (String × String)) :
    ∀ acc : Store, keysNodup acc →
      keysNodup (ps.foldl (fun a p => storeSet a (pyLower p.1) p.2) acc) := by
  induction ps with
  | nil => intro acc h; exact h
  | cons p rest ih =>
      intro acc h
      rw [List.foldl_cons]
      exact ih _ (keysNodup_storeSet _ _ _ h)

theorem keysNodup_lowerDict (d : Store) :
    keysNodup (CaseInsensitiveDict.lowerDict d) :=
  keysNodup_foldSet d [] (by simp [keysNodup])

theorem storeGet?_of_mem_nodup (s : Store) (p : String × String)
    (hnd : keysNodup s) (hp : p ∈ s) : storeGet? s p.1 = some p.2 := by
  induction s with
  | nil => cases hp
  | cons q rest ih =>
      rcases List.mem_cons.mp hp with rfl | hmem
      · unfold storeGet?
        rw [List.find?_cons_of_pos _ (by simp)]
        rfl
      · have hnotin : q.1 ∉ rest.map (fun r => r.1) := by
          unfold keysNodup at hnd
          rw [List.map_cons] at hnd
          exact (List.nodup_cons.mp hnd).1
        have hne : q.1 ≠ p.1 := fun he => hnotin (he ▸ List.mem_map_of_mem _ hmem)
        have hnd' : keysNodup rest := by
          unfold keysNodup at hnd ⊢
          rw [List.map_cons] at hnd
          exact (List.nodup_cons.mp hnd).2
        have hres := ih hnd' hmem
        unfold storeGet? at hres ⊢
        rw [List.find?_cons_of_neg _ (by simp [hne])]
        exact hres

theorem dictEq_iff_ext (a b : Store) (ha : keysNodup a) (hb : keysNodup b) :
    CaseInsensitiveDict.dictEq a b = true ↔
      ∀ k, storeGet? a k = storeGet? b k := by
  constructor
  · intro h k
    unfold CaseInsensitiveDict.dictEq at h
    rw [Bool.and_eq_true] at h
    obtain ⟨h1, h2⟩ := h
    rw [List.all_eq_true] at h1 h2
    cases hga : storeGet? a k with
    | some v =>
        unfold storeGet? at hga
        obtain ⟨p, hfind, hv⟩ := Option.map_eq_some'.mp hga
        have hpk := List.find?_some hfind
        have hpa : p ∈ a := List.mem_of_find?_eq_some hfind
        have := h1 p hpa
        rw [beq_iff_eq] at this
        rw [← eq_of_beq hpk, this, hv]
    | none =>
        cases hgb : storeGet? b k with
        | some w =>
            unfold storeGet? at hgb
            obtain ⟨q, hfind, hw⟩ := Option.map_eq_some'.mp hgb
            have hqk := List.find?_some hfind
            have hqb : q ∈ b := List.mem_of_find?_eq_some hfind
            have := h2 q hqb
            rw [beq_iff_eq] at this
            rw [eq_of_beq hqk] at this
            rw [this] at hga
            cases hga
        | none => rfl
  · intro hext
    unfold CaseInsensitiveDict.dictEq
    rw [Bool.and_eq_true]
    constructor
    · rw [List.all_eq_true]
      intro p hp
      have hg := storeGet?_of_mem_nodup a p ha hp
      rw [beq_iff_eq, ← hext p.1]
      exact hg
    · rw [List.all_eq_true]
      intro p hp
      have hg := storeGet?_of_mem_nodup b p hb hp
      rw [beq_iff_eq, hext p.1]
      exact hg

theorem unbound_mutations_stay_unbound (s : Store) :
    (∀ k v, ((⟨s, none⟩ : CaseInsensitiveDict).setitem k v).1._client = none)
  ∧ (∀ k r, (⟨s, none⟩ : CaseInsensitiveDict).delitem k = Except.ok r →
        r.1._client = none)
  ∧ ((⟨s, none⟩ : CaseInsensitiveDict).clear.1._client = none)
  ∧ (∀ k dflt r, (⟨s, none⟩ : CaseInsensitiveDict).pop k dflt = Except.ok r →
        r.2.1._client = none)
  ∧ (∀ r, (⟨s, none⟩ : CaseInsensitiveDict).popitem = Except.ok r →
        r.2.1._client = none)
  ∧ (∀ k dflt, ((⟨s, none⟩ : CaseInsensitiveDict).setdefault k dflt).2.1._client = none)
  ∧ (∀ other kwargs,
        ((⟨s, none⟩ : CaseInsensitiveDict).update other kwargs).1._client = none) := by
  refine ⟨fun k v => rfl, ?_, rfl, ?_, ?_, ?_, ?_⟩
  · intro k r hr
    by_cases hm : storeMem s (pyLower k) = true
    · simp only [CaseInsensitiveDict.delitem, hm, if_true] at hr
      cases hr
      rfl
    · simp [CaseInsensitiveDict.delitem, hm] at hr
  · intro k dflt r hr
    cases hg : storeGet? s (pyLower k) with
    | some v =>
        simp only [CaseInsensitiveDict.pop, hg] at hr
        cases hr
        rfl
    | none =>
        cases dflt with
        | none => simp [CaseInsensitiveDict.pop, hg] at hr
        | some dv =>
            simp only [CaseInsensitiveDict.pop, hg] at hr
            cases hr
            rfl
  · intro r hr
    cases hpop : storePopitem s with
    | none => simp [CaseInsensitiveDict.popitem, hpop] at hr
    | some q =>
        simp only [CaseInsensitiveDict.popitem, hpop] at hr
        cases hr
        rfl
  · intro k dflt
    cases hg : storeGet? s (pyLower k) with
    | some v => simp [CaseInsensitiveDict.setdefault, hg]
    | none => simp [CaseInsensitiveDict.setdefault, hg, CaseInsensitiveDict.syncToClient]
  · intro other kwargs
    cases other with
    | none =>
        simp only [CaseInsensitiveDict.update]
        split <;> rfl
    | some l =>
        simp only [CaseInsensitiveDict.update]
        split <;> rfl

/-- C4: `copy()` on a well-formed map (distinct lowercase keys, as every
reachable map has) returns a snapshot with the same store, bound to no
client; the copy is a function of the store alone, and every mutation of the
copy leaves it unbound — the propagation hook never reaches any client, so a
client bound to the original is untouched by mutations of the copy. -/
theorem copy_is_unbound_snapshot (d : CaseInsensitiveDict)
    (h1 : keysNodup d._store) (h2 : keysLower d._store) :
    d.copy._store = d._store
  ∧ d.copy._client = none
  ∧ (∀ e : CaseInsensitiveDict, e._store = d._store → e.copy = d.copy)
  ∧ (∀ k v, (d.copy.setitem k v).1._client = none)
  ∧ (∀ k r, d.copy.delitem k = Except.ok r → r.1._client = none)
  ∧ (d.copy.clear.1._client = none)
  ∧ (∀ k dflt r, d.copy.pop k dflt = Except.ok r → r.2.1._client = none)
  ∧ (∀ r, d.copy.popitem = Except.ok r → r.2.1._client = none)
  ∧ (∀ k dflt, (d.copy.setdefault k dflt).2.1._client = none)
  ∧ (∀ other kwargs, (d.copy.update other kwargs).1._client = none) := by
  have hstore : d.copy._store = d._store := by
    show (CaseInsensitiveDict.ofData d._store none)._store = d._store
    unfold CaseInsensitiveDict.ofData
    have h := foldSet_eq_append d._store [] h1 h2 (fun p _ => rfl)
    simpa using h
  have hops := unbound_mutations_stay_unbound d.copy._store
  exact ⟨hstore, rfl,
    fun e he => by unfold CaseInsensitiveDict.copy; rw [he],
    hops.1, hops.2.1, hops.2.2.1, hops.2.2.2.1, hops.2.2.2.2.1,
    hops.2.2.2.2.2.1, hops.2.2.2.2.2.2⟩

/-- C4 witness: copying the bound map `a ↦ 1, b ↦ 2` yields an unbound
snapshot with the same store, and a `__setitem__` on the copy stays
unbound. -/
theorem copy_is_unbound_snapshot_witness :
    (⟨[("a", "1"), ("b", "2")], some [("a", "1"), ("b", "2")]⟩ :
        CaseInsensitiveDict).copy._store = [("a", "1"), ("b", "2")]
  ∧ (⟨[("a", "1"), ("b", "2")], some [("a", "1"), ("b", "2")]⟩ :
        CaseInsensitiveDict).copy._client = none
  ∧ ((⟨[("a", "1"), ("b", "2")], some [("a", "1"), ("b", "2")]⟩ :
        CaseInsensitiveDict).copy.setitem "C" "3").1._client = none :=
  ⟨(copy_is_unbound_snapshot ⟨[("a", "1"), ("b", "2")], some [("a", "1"), ("b", "2")]⟩
      (by decide) (by decide)).1,
   (copy_is_unbound_snapshot ⟨[("a", "1"), ("b", "2")], some [("a", "1"), ("b", "2")]⟩
      (by decide) (by decide)).2.1,
   (copy_is_unbound_snapshot ⟨[("a", "1"), ("b", "2")], some [("a", "1"), ("b", "2")]⟩
      (by decide) (by decide)).2.2.2.1 "C" "3"⟩

/-- C5: comparing a header map with a plain dict holds exactly when the
lowercase-keyed rebuild of the plain dict agrees with the stored map on every
key, and two header maps compare equal exactly when their stored maps agree
on every key (hypotheses: distinct stored keys, as in every Python dict). -/
theorem headerMap_equality_case_insensitive (hm : CaseInsensitiveDict)
    (d : Store) (a b : CaseInsensitiveDict) (hh : keysNodup hm._store)
    (hA : keysNodup a._store) (hB : keysNodup b._store) :
    (hm.eqPlainDict d = true ↔
        ∀ k, storeGet? hm._store k
          = storeGet? (CaseInsensitiveDict.lowerDict d) k)
  ∧ (a.eqCID b = true ↔ ∀ k, storeGet? a._store k = storeGet? b._store k) :=
  ⟨dictEq_iff_ext _ _ hh (keysNodup_lowerDict d), dictEq_iff_ext _ _ hA hB⟩

/-- C5 witness: the theorem instantiated at `\x7b"a": "1"\x7d` versus the plain
dict `\x7b"A": "1"\x7d` and at two equal-store maps. -/
theorem headerMap_equality_case_insensitive_witness :
    ((⟨[("a", "1")], none⟩ : CaseInsensitiveDict).eqPlainDict [("A", "1")] = true ↔
        ∀ k, storeGet? (⟨[("a", "1")], none⟩ : CaseInsensitiveDict)._store k
          = storeGet? (CaseInsensitiveDict.lowerDict [("A", "1")]) k)
  ∧ ((⟨[("a", "1")], none⟩ : CaseInsensitiveDict).eqCID
        ⟨[("a", "1")], some []⟩ = true ↔
        ∀ k, storeGet? (⟨[("a", "1")], none⟩ : CaseInsensitiveDict)._store k
          = storeGet? (⟨[("a", "1")], some []⟩ : CaseInsensitiveDict)._store k) :=
  headerMap_equality_case_insensitive ⟨[("a", "1")], none⟩ [("A", "1")]
    ⟨[("a", "1")], none⟩ ⟨[("a", "1")], some []⟩
    (by decide) (by decide) (by decide)

/-! ### Decimal representation of integer query values -/

theorem digitVal?_digitChar (d : Nat) (h : d < 10) :
    digitVal? (Nat.digitChar d) = some d := by
  interval_cases d <;> decide

theorem digitChar_ne_dash (d : Nat) (h : d < 10) : Nat.digitChar d ≠ '-' := by
  interval_cases d <;> decide

theorem natDigitsAux_no_dash :
    ∀ (fuel n : Nat), ∀ c ∈ natDigitsAux fuel n, c ≠ '-' := by
  intro fuel
  induction fuel with
  | zero => intro n c hc; cases hc
  | succ f ih =>
      intro n c hc
      by_cases hn : n = 0
      · subst hn
        simp [natDigitsAux] at hc
      · unfold natDigitsAux at hc
        rw [if_neg (by simpa using hn)] at hc
        rcases List.mem_append.mp hc with h1 | h2
        · exact ih _ c h1
        · rw [List.mem_singleton] at h2
          subst h2
          exact digitChar_ne_dash _ (Nat.mod_lt _ (by norm_num))

theorem natDigitsAux_ne_nil (fuel n : Nat) (hn : n ≠ 0) (hf : 1 ≤ fuel) :
    natDigitsAux fuel n ≠ [] := by
  cases fuel with
  | zero => omega
  | succ f =>
      unfold natDigitsAux
      rw [if_neg (by simpa using hn)]
      simp

theorem parseDigitsAux_append (xs ys : List Char) :
    ∀ acc, parseDigitsAux acc (xs ++ ys)
      = (parseDigitsAux acc xs).bind (fun m => parseDigitsAux m ys) := by
  induction xs with
  | nil => intro acc; rfl
  | cons c cs ih =>
      intro acc
      rw [List.cons_append]
      show (match digitVal? c with
            | some d => parseDigitsAux (acc * 10 + d) (cs ++ ys)
            | none => none)
          = (match digitVal? c with
            | some d => parseDigitsAux (acc * 10 + d) cs
            | none => none).bind (fun m => parseDigitsAux m ys)
      cases digitVal? c with
      | some d => exact ih _
      | none => rfl

theorem natDigitsAux_parse :
    ∀ (fuel n acc : Nat), n ≤ fuel →
      parseDigitsAux acc (natDigitsAux fuel n)
        = some (acc * 10 ^ (natDigitsAux fuel n).length + n) := by
  intro fuel
  induction fuel with
  | zero =>
      intro n acc h
      have hn : n = 0 := Nat.le_zero.mp h
      subst hn
      simp [natDigitsAux, parseDigitsAux]
  | succ f ih =>
      intro n acc h
      by_cases hn : n = 0
      · subst hn
        simp [natDigitsAux, parseDigitsAux]
      · have hlt : n / 10 < n := Nat.div_lt_self (Nat.pos_of_ne_zero hn) (by norm_num)
        have hij : n / 10 ≤ f := by omega
        have hd : digitVal? (Nat.digitChar (n % 10)) = some (n % 10) :=
          digitVal?_digitChar _ (Nat.mod_lt _ (by norm_num))
        have hstep : natDigitsAux (f + 1) n
            = natDigitsAux f (n / 10) ++ [Nat.digitChar (n % 10)] := by
          simp only [natDigitsAux]
          rw [if_neg (by simpa using hn)]
        have hbind : ∀ (A : Nat) (g : Nat → Option Nat),
            Option.bind (some A) g = g A := fun A g => rfl
        have hone : ∀ m : Nat,
            parseDigitsAux m [Nat.digitChar (n % 10)] = some (m * 10 + n % 10) := by
          intro m
          unfold parseDigitsAux
          rw [hd]
          rfl
        rw [hstep, parseDigitsAux_append, ih (n / 10) acc hij, hbind, hone,
          List.length_append, List.length_singleton]
        congr 1
        have hdm : n / 10 * 10 + n % 10 = n := by omega
        calc (acc * 10 ^ (natDigitsAux f (n / 10)).length + n / 10) * 10 + n % 10
            = acc * (10 ^ (natDigitsAux f (n / 10)).length * 10)
              + (n / 10 * 10 + n % 10) := by ring
          _ = acc * 10 ^ ((natDigitsAux f (n / 10)).length + 1) + n := by
              rw [hdm, pow_succ]

theorem decodeDecimal_mk_cons (c : Char) (cs : List Char) :
    decodeDecimal (String.mk (c :: cs))
      = if c = '-' then (parseNat cs).map (fun (n : Nat) => -(n : Int))
        else (parseNat (c :: cs)).map (fun (n : Nat) => (n : Int)) := rfl

theorem decodeDecimal_pyStrInt (m : Int) : decodeDecimal (pyStrInt m) = some m := by
  by_cases hm : m < 0
  · have hn0 : m.natAbs ≠ 0 := by omega
    unfold pyStrInt
    rw [if_pos hm, decodeDecimal_mk_cons, if_pos rfl]
    have hne := natDigitsAux_ne_nil m.natAbs m.natAbs hn0 (by omega)
    unfold parseNat
    rw [if_neg (by simpa [List.isEmpty_iff] using hne)]
    rw [natDigitsAux_parse m.natAbs m.natAbs 0 (le_refl _)]
    simp only [Nat.zero_mul, Nat.zero_add, Option.map_some']
    congr 1
    omega
  · unfold pyStrInt
    rw [if_neg hm]
    by_cases h0 : m.natAbs = 0
    · have hm0 : m = 0 := by omega
      subst hm0
      decide
    · unfold pyStrNat
      rw [if_neg (by simpa using h0)]
      cases hds : natDigitsAux m.natAbs m.natAbs with
      | nil => exact absurd hds (natDigitsAux_ne_nil _ _ h0 (by omega))
      | cons c0 rest =>
          have hc0 : c0 ≠ '-' :=
            natDigitsAux_no_dash _ _ c0 (hds ▸ List.mem_cons_self _ _)
          rw [decodeDecimal_mk_cons, if_neg hc0]
          unfold parseNat
          rw [if_neg (by simp)]
          rw [← hds, natDigitsAux_parse m.natAbs m.natAbs 0 (le_refl _)]
          simp only [Nat.zero_mul, Nat.zero_add, Option.map_some']
          congr 1
          omega

theorem parseDigitsAux_lt :
    ∀ (cs : List Char) (acc n : Nat), parseDigitsAux acc cs = some n →
      n < (acc + 1) * 10 ^ cs.length := by
  intro cs
  induction cs with
  | nil =>
      intro acc n h
      unfold parseDigitsAux at h
      injection h with h1
      subst h1
      simpa using Nat.lt_succ_self acc
  | cons c cs ih =>
      intro acc n h
      unfold parseDigitsAux at h
      cases hd : digitVal? c with
      | none =>
          simp only [hd] at h
          exact Option.noConfusion h
      | some d =>
          simp only [hd] at h
          have hib := ih (acc * 10 + d) n h
          have hd9 : d ≤ 9 := by
            unfold digitVal? at hd
            by_cases hc : 48 ≤ c.toNat ∧ c.toNat ≤ 57
            · rw [if_pos hc] at hd
              injection hd with hd1
              omega
            · rw [if_neg hc] at hd
              cases hd
          have hmul : (acc * 10 + d + 1) * 10 ^ cs.length
              ≤ ((acc + 1) * 10) * 10 ^ cs.length :=
            Nat.mul_le_mul_right _ (by omega)
          have heq : ((acc + 1) * 10) * 10 ^ cs.length
              = (acc + 1) * 10 ^ (cs.length + 1) := by
            rw [pow_succ]
            ring
          rw [List.length_cons, ← heq]
          exact lt_of_lt_of_le hib hmul

theorem natDigitsAux_length_le :
    ∀ (fuel n e : Nat), n ≤ fuel → n < 10 ^ e →
      (natDigitsAux fuel n).length ≤ e := by
  intro fuel
  induction fuel with
  | zero => intro n e _ _; simp [natDigitsAux]
  | succ f ih =>
      intro n e h hl
      by_cases hn : n = 0
      · subst hn
        simp [natDigitsAux]
      · have hstep : natDigitsAux (f + 1) n
            = natDigitsAux f (n / 10) ++ [Nat.digitChar (n % 10)] := by
          simp only [natDigitsAux]
          rw [if_neg (by simpa using hn)]
        rw [hstep, List.length_append, List.length_singleton]
        cases e with
        | zero =>
            rw [pow_zero] at hl
            omega
        | succ e2 =>
            have hdiv : n / 10 < 10 ^ e2 := by
              rw [Nat.div_lt_iff_lt_mul (by norm_num)]
              calc n < 10 ^ (e2 + 1) := hl
                _ = 10 ^ e2 * 10 := by rw [pow_succ]
            have hlt : n / 10 < n := Nat.div_lt_self (Nat.pos_of_ne_zero hn) (by norm_num)
            have hrec := ih (n / 10) e2 (by omega) hdiv
            omega

theorem pyStrNat_length_le (n e : Nat) (he : 1 ≤ e) (hl : n < 10 ^ e) :
    (pyStrNat n).length ≤ e := by
  unfold pyStrNat
  by_cases hn : n = 0
  · subst hn
    show ("0" : String).length ≤ e
    exact he
  · rw [if_neg (by simpa using hn)]
    have hmk : (String.mk (natDigitsAux n n)).length = (natDigitsAux n n).length := rfl
    rw [hmk]
    exact natDigitsAux_length_le n n e (le_refl _) hl

theorem pyStrInt_shortest (s : String) (n : Int)
    (h : decodeDecimal s = some n) : (pyStrInt n).length ≤ s.length := by
  have hs : s.length = s.data.length := rfl
  cases hdata : s.data with
  | nil =>
      unfold decodeDecimal at h
      simp only [hdata] at h
      exact Option.noConfusion h
  | cons c cs =>
      unfold decodeDecimal at h
      simp only [hdata] at h
      by_cases hc : c = '-'
      · rw [if_pos hc] at h
        obtain ⟨k, hk, hkn⟩ := Option.map_eq_some'.mp h
        unfold parseNat at hk
        by_cases hemp : cs.isEmpty = true
        · rw [if_pos hemp] at hk
          cases hk
        · rw [if_neg hemp] at hk
          have hbound : k < 10 ^ cs.length := by
            have hb := parseDigitsAux_lt cs 0 k hk
            simpa using hb
          by_cases hk0 : k = 0
          · have hn0 : n = 0 := by omega
            subst hn0
            have h1 : (pyStrInt 0).length = 1 := rfl
            rw [h1, hs, hdata, List.length_cons]
            omega
          · have hneg : n < 0 := by omega
            have habs : n.natAbs = k := by omega
            unfold pyStrInt
            rw [if_pos hneg]
            have hlen : (String.mk ('-' :: natDigitsAux n.natAbs n.natAbs)).length
                = 1 + (natDigitsAux n.natAbs n.natAbs).length := by
              show ('-' :: natDigitsAux n.natAbs n.natAbs).length = _
              rw [List.length_cons]
              omega
            rw [hlen, habs, hs, hdata, List.length_cons]
            have hlen1 : 1 ≤ cs.length := by
              cases cs with
              | nil => simp at hemp
              | cons _ _ => exact Nat.succ_le_succ (Nat.zero_le _)
            have hdl : (natDigitsAux k k).length ≤ cs.length :=
              natDigitsAux_length_le k k cs.length (le_refl _) hbound
            omega
      · rw [if_neg hc] at h
        obtain ⟨k, hk, hkn⟩ := Option.map_eq_some'.mp h
        unfold parseNat at hk
        rw [if_neg (by simp)] at hk
        have hbound : k < 10 ^ (c :: cs).length := by
          have hb := parseDigitsAux_lt (c :: cs) 0 k hk
          simpa using hb
        have hnn : 0 ≤ n := by omega
        have habs : n.natAbs = k := by omega
        unfold pyStrInt
        rw [if_neg (by omega), habs, hs, hdata]
        exact pyStrNat_length_le k (c :: cs).length
          (by exact Nat.succ_le_succ (Nat.zero_le _)) hbound

/-- C6: with a supported method and a params mapping supplied, `Client.request`
and `AsyncClient.request` forward the params with every value passed through
`str` (strings unchanged, ints in decimal), and for every integer the produced
string is a faithful decimal spelling — it decodes back to the integer — and
is shortest: no decimal spelling of the same integer is shorter. -/
theorem request_params_coerced_to_str (c : ClientState) (method url : String)
    (ps : List (String × PyVal)) (h : allowedMethods.contains method = true) :
    Client.request c method url (some ps)
      = .issued method url c.headers (some (ps.map (fun p => (p.1, pyStr p.2))))
  ∧ AsyncClient.request c method url (some ps)
      = .issued method url c.headers (some (ps.map (fun p => (p.1, pyStr p.2))))
  ∧ (∀ n : Int, decodeDecimal (pyStr (PyVal.int n)) = some n)
  ∧ (∀ (s : String) (n : Int), decodeDecimal s = some n →
        (pyStr (PyVal.int n)).length ≤ s.length) := by
  have hm : method ∈ allowedMethods := by simpa using h
  refine ⟨?_, ?_, fun n => decodeDecimal_pyStrInt n,
    fun s n hs => pyStrInt_shortest s n hs⟩
  · simp [Client.request, hm]
  · simp only [AsyncClient.request, Client.request, h, eq_self_iff_true, if_true,
      Option.map_some', List.map_map]
    rfl

/-- C6 witness: a `GET` with an int param `-5` and a string param is issued
with both values stringified, and `str(42)` decodes back to `42`. -/
theorem request_params_coerced_to_str_witness :
    Client.request ⟨[("h", "v")], [], []⟩ "GET" "https://x"
        (some [("x", PyVal.int (-5)), ("y", PyVal.str "aaa")])
      = .issued "GET" "https://x" [("h", "v")] (some [("x", "-5"), ("y", "aaa")])
  ∧ decodeDecimal (pyStr (PyVal.int 42)) = some 42 := by
  constructor
  · have h := (request_params_coerced_to_str ⟨[("h", "v")], [], []⟩ "GET"
      "https://x" [("x", PyVal.int (-5)), ("y", PyVal.str "aaa")] (by decide)).1
    rw [h]
    decide
  · exact (request_params_coerced_to_str ⟨[("h", "v")], [], []⟩ "GET"
      "https://x" [] (by decide)).2.2.1 42

end Httpr
